import Mathlib

set_option maxRecDepth 40000

/-!
Verification of the message-classification core of `src/utils/llmHelper.js`.

The file shallowly embeds the four functions of that module —
`categorizeMessage`, `parseJsonResponse`, `normalizeCategorizationResult`
and `getMockCategorization` — together with the JavaScript primitives they
rely on (string trimming, lower-casing, substring search, the code-fence
regular expression, `JSON.parse`, and `Number` coercion), and proves the
spec claims about them.

Modelling conventions:
  * JavaScript strings are Lean `String`s (lists of characters).  The
    whitespace classes of `String.prototype.trim` and of the regex `\s`
    coincide on the characters exercised here and are modelled by the one
    predicate `isJsWs`, restricted to the ASCII whitespace characters
    (Unicode whitespace is not modelled; no claim depends on it).
  * JSON numbers are modelled exactly, as a decimal mantissa/exponent pair
    (`Dec`), not as IEEE doubles; `Number.isInteger` and the range checks
    of the normalizer are decided on that exact value.  This is faithful
    for every value the claims exercise (IEEE rounding of extreme literals
    is not modelled).
  * The remote Groq call is represented by its observable outcome
    (`RemoteOutcome`): either the reply text of a successful call, or a
    transport/API failure.  The thrown JavaScript exceptions that
    `categorizeMessage` catches are modelled with `Except`.
-/

/-! ## JavaScript string primitives -/

/-- ASCII whitespace, the common core of JavaScript's `String.prototype.trim`
character class and of the regex class `\s`. -/
def isJsWs (c : Char) : Bool :=
  c = ' ' || c = '\t' || c = '\n' || c = '\r' || c = '\x0b' || c = '\x0c'

/-- Whitespace of the JSON grammar (RFC 8259): space, tab, LF, CR.
Note this is strictly smaller than `isJsWs`. -/
def isJsonWs (c : Char) : Bool :=
  c = ' ' || c = '\t' || c = '\n' || c = '\r'

/-- Drop the longest suffix whose characters all satisfy `p`. -/
def dropWhileEnd (p : Char → Bool) (l : List Char) : List Char :=
  (l.reverse.dropWhile p).reverse

/-- `String.prototype.trim` on character lists. -/
def jsTrimL (l : List Char) : List Char :=
  dropWhileEnd isJsWs (l.dropWhile isJsWs)

/-- `String.prototype.trim`. -/
def jsTrim (s : String) : String :=
  String.mk (jsTrimL s.toList)

/-- Trimming with the JSON whitespace class (used by the `JSON.parse`
model for the `ws value ws` top-level production). -/
def jsonTrimL (l : List Char) : List Char :=
  dropWhileEnd isJsonWs (l.dropWhile isJsonWs)

/-- `String.prototype.toLowerCase` (ASCII; the heuristic keywords are all
ASCII). -/
def toLowerStr (s : String) : String :=
  String.mk (s.toList.map Char.toLower)

/-- `String.prototype.includes`: `containsSub needle hay` is true iff
`needle` occurs contiguously in `hay`. -/
def containsSub (needle : List Char) : List Char → Bool
  | [] => needle.isPrefixOf []
  | c :: t => needle.isPrefixOf (c :: t) || containsSub needle t

/-! ## The classification result record

`ClassificationResult` is the object shape returned by every path of
`categorizeMessage`.  `priority_score` is stored as an integer: the
normalizer only ever stores an integral number (a kept in-range integer or
the default 3), and the heuristic path only uses integer literals, so this
is a faithful embedding of the number field. -/

structure ClassificationResult where
  category : String
  sentiment : String
  priority_score : ℤ
  reasoning : String
deriving DecidableEq

/-! ## The heuristic fallback `getMockCategorization`

Direct translation of `getMockCategorization` (src/utils/llmHelper.js,
lines 100-180).  The rule conditions are split into named helper
definitions, one per rule of the `if` chain, applied to the lower-cased
message exactly as in the source. -/

/-- `lowerMessage = message.toLowerCase()`. -/
def lowerOf (message : String) : String := toLowerStr message

/-- `lowerMessage.includes(w)` for a keyword `w`. -/
def includesKw (message : String) (w : String) : Bool :=
  containsSub w.toList (lowerOf message).toList

/-- The fixed word list `angryIndicators`. -/
def angryIndicators : List String :=
  ["angry", "furious", "outraged", "unacceptable", "worst", "terrible",
   "horrible", "!!!", "urgent", "asap", "immediately"]

/-- `isAngry`: an angry indicator occurs in the lower-cased message, or the
original message contains at least two `!` characters
(`(message.match(/!/g) || []).length >= 2`). -/
def isAngryMsg (message : String) : Bool :=
  angryIndicators.any (fun w => includesKw message w) ||
    decide (2 ≤ (message.toList.filter (fun c => c = '!')).length)

/-- Condition of the billing rule. -/
def billingHit (message : String) : Bool :=
  includesKw message "bill" || includesKw message "payment" ||
    includesKw message "charge" || includesKw message "invoice" ||
    includesKw message "subscription" || includesKw message "refund"

/-- Condition of the technical-problem rule. -/
def techHit (message : String) : Bool :=
  includesKw message "bug" || includesKw message "error" ||
    includesKw message "broken" || includesKw message "not working" ||
    includesKw message "crash" || includesKw message "down" ||
    includesKw message "server" || includesKw message "loading" ||
    includesKw message "issue"

/-- Condition of the feature-request rule. -/
def featureHit (message : String) : Bool :=
  includesKw message "feature" || includesKw message "improve" ||
    includesKw message "suggestion" || includesKw message "would like to see" ||
    includesKw message "enhancement"

/-- Condition of the positive-feedback rule. -/
def gratitudeHit (message : String) : Bool :=
  (includesKw message "thank" || includesKw message "thanks" ||
      includesKw message "appreciate") &&
    !includesKw message "but" && !includesKw message "however"

/-- Condition of the general-inquiry rule. -/
def inquiryHit (message : String) : Bool :=
  includesKw message "how" || includesKw message "what" ||
    includesKw message "?" || includesKw message "can i" ||
    includesKw message "is there"

/-- `reasoningVariations.billing`. -/
def billingReasoning : String :=
  "Based on keywords related to payments and billing, this appears to be a billing-related inquiry."

/-- `reasoningVariations.technical`. -/
def technicalReasoning : String :=
  "This message describes technical difficulties or system errors that may require engineering review."

/-- `reasoningVariations.feature`. -/
def featureReasoning : String :=
  "The customer is requesting enhancements or new functionality."

/-- `reasoningVariations.inquiry`. -/
def inquiryReasoning : String :=
  "This appears to be a general question about the product or service."

/-- `reasoningVariations.positive`. -/
def positiveReasoning : String :=
  "The customer is expressing satisfaction or gratitude."

/-- `reasoningVariations.ambiguous`. -/
def ambiguousReasoning : String :=
  "The message doesn\x27t contain clear indicators for automatic categorization. Manual review recommended."

/-- The heuristic fallback classifier (`getMockCategorization`). -/
def getMockCategorization (message : String) : ClassificationResult :=
  let isAngry := isAngryMsg message
  let sentiment := if isAngry then "Angry" else "Neutral"
  let basePriority : ℤ := if isAngry then 4 else 2
  if billingHit message then
    ⟨"Billing Issue", sentiment, min 5 (basePriority + 1), billingReasoning⟩
  else if techHit message then
    ⟨"Technical Problem", sentiment,
      if isAngry then 5 else min 5 (basePriority + 2), technicalReasoning⟩
  else if featureHit message then
    ⟨"Feature Request", sentiment, basePriority, featureReasoning⟩
  else if gratitudeHit message then
    ⟨"General Inquiry", "Neutral", 1, positiveReasoning⟩
  else if inquiryHit message then
    ⟨"General Inquiry", sentiment, basePriority, inquiryReasoning⟩
  else
    ⟨"General Inquiry", sentiment, basePriority, ambiguousReasoning⟩

/-! ## JavaScript values

`Dec` is an exact decimal number `mant * 10 ^ expo`; it models the numeric
values produced by JSON number literals and by `Number` coercion of
strings.  `JSNum` adds the non-finite results of `Number` coercion. -/

/-- An exact decimal: the value `mant * 10 ^ expo`. -/
structure Dec where
  mant : ℤ
  expo : ℤ
deriving DecidableEq

/-- The rational value of a `Dec`. -/
def toRatDec (d : Dec) : ℚ := (d.mant : ℚ) * (10 : ℚ) ^ d.expo

/-- Result of JavaScript `Number(...)` coercion. -/
inductive JSNum where
  | nan
  | inf (neg : Bool)
  | num (d : Dec)
deriving DecidableEq

/-- The values `JSON.parse` can produce (plus, at field accesses, the
implicit `undefined`, modelled as `Option.none`). -/
inductive JSValue where
  | null
  | bool (b : Bool)
  | num (d : Dec)
  | str (s : String)
  | arr (elems : List JSValue)
  | obj (fields : List (String × JSValue))

/-- `Number.isInteger` on the exact value of a `Dec`: `some n` when the
value is the integer `n`, `none` when it is not an integer. -/
def decAsInt? (d : Dec) : Option ℤ :=
  if 0 ≤ d.expo then some (d.mant * 10 ^ d.expo.toNat)
  else if d.mant % 10 ^ (-d.expo).toNat = 0 then some (d.mant / 10 ^ (-d.expo).toNat)
  else none

/-! ## `JSON.parse`

A committed recursive-descent parser for RFC 8259 JSON.  Recursion is
bounded by explicit fuel; every recursive call consumes input, so the
initial fuel `2 * length + 2` used by `jsonParse` can never be exhausted
on any input before the parse finishes (each unit of nesting consumes at
least one input character and costs at most two calls).  The top-level
production `ws value ws` is modelled by trimming JSON whitespace from
both ends and requiring exact consumption; this is equivalent because no
grammar production consumes trailing whitespace. -/

/-- Value of a hexadecimal digit. -/
def hexDigitVal (c : Char) : Option Nat :=
  if '0' ≤ c ∧ c ≤ '9' then some (c.toNat - 48)
  else if 'a' ≤ c ∧ c ≤ 'f' then some (c.toNat - 87)
  else if 'A' ≤ c ∧ c ≤ 'F' then some (c.toNat - 55)
  else none

/-- Value of `\uXXXX`'s four hex digits. -/
def hex4 (a b c d : Char) : Option Nat :=
  match hexDigitVal a, hexDigitVal b, hexDigitVal c, hexDigitVal d with
  | some x, some y, some z, some w => some (((x * 16 + y) * 16 + z) * 16 + w)
  | _, _, _, _ => none

/-- Single-character escapes of JSON strings. -/
def escChar (c : Char) : Option Char :=
  if c = '"' then some '"'
  else if c = '\\' then some '\\'
  else if c = '/' then some '/'
  else if c = 'b' then some '\x08'
  else if c = 'f' then some '\x0c'
  else if c = 'n' then some '\n'
  else if c = 'r' then some '\r'
  else if c = 't' then some '\t'
  else none

/-- Body of a JSON string, after the opening quote: returns the decoded
characters and the input after the closing quote.  Surrogate-pair
`\uXXXX\uXXXX` escapes are combined; a lone surrogate (which JavaScript
would keep as an unpaired UTF-16 unit, not representable as a Lean
`Char`) becomes U+FFFD.  Fuel `length + 1` always suffices since every
recursive call consumes input. -/
def parseStringBody (fuel : Nat) (l : List Char) : Option (List Char × List Char) :=
  match fuel with
  | 0 => none
  | fuel + 1 =>
    match l with
    | [] => none
    | c :: rest =>
      if c = '"' then some ([], rest)
      else if c = '\\' then
        match rest with
        | 'u' :: a :: b :: c1 :: d1 :: rest2 =>
          match hex4 a b c1 d1 with
          | none => none
          | some n =>
            if 0xD800 ≤ n ∧ n ≤ 0xDBFF then
              match rest2 with
              | '\\' :: 'u' :: e :: f :: g :: h :: rest3 =>
                match hex4 e f g h with
                | none => none
                | some m =>
                  if 0xDC00 ≤ m ∧ m ≤ 0xDFFF then
                    (parseStringBody fuel rest3).map fun p =>
                      (Char.ofNat (0x10000 + (n - 0xD800) * 0x400 + (m - 0xDC00)) :: p.1, p.2)
                  else
                    (parseStringBody fuel ('\\' :: 'u' :: e :: f :: g :: h :: rest3)).map fun p =>
                      ('�' :: p.1, p.2)
              | _ =>
                (parseStringBody fuel rest2).map fun p => ('�' :: p.1, p.2)
            else if 0xDC00 ≤ n ∧ n ≤ 0xDFFF then
              (parseStringBody fuel rest2).map fun p => ('�' :: p.1, p.2)
            else
              (parseStringBody fuel rest2).map fun p => (Char.ofNat n :: p.1, p.2)
        | e :: rest2 =>
          match escChar e with
          | none => none
          | some ec => (parseStringBody fuel rest2).map fun p => (ec :: p.1, p.2)
        | [] => none
      else if c.toNat < 0x20 then none
      else (parseStringBody fuel rest).map fun p => (c :: p.1, p.2)

/-- Integer value of a digit string. -/
def digitsVal (ds : List Char) : ℤ :=
  ds.foldl (fun acc c => acc * 10 + ((c.toNat : ℤ) - 48)) 0

/-- Fraction and exponent of a JSON number, after the integer part. -/
def parseNumberTail (neg : Bool) (intVal : ℤ) (l : List Char) :
    Option (JSValue × List Char) :=
  let fracSplit : Option (List Char × List Char) :=
    match l with
    | '.' :: t =>
      let fds := t.takeWhile Char.isDigit
      if fds.isEmpty then none else some (fds, t.dropWhile Char.isDigit)
    | _ => some ([], l)
  match fracSplit with
  | none => none
  | some (fds, l2) =>
    let expSplit : Option (ℤ × List Char) :=
      match l2 with
      | e :: t =>
        if e = 'e' ∨ e = 'E' then
          let st : Bool × List Char :=
            match t with
            | '+' :: t2 => (false, t2)
            | '-' :: t2 => (true, t2)
            | _ => (false, t)
          let eds := st.2.takeWhile Char.isDigit
          if eds.isEmpty then none
          else some ((if st.1 then -digitsVal eds else digitsVal eds),
            st.2.dropWhile Char.isDigit)
        else some (0, l2)
      | [] => some (0, l2)
    match expSplit with
    | none => none
    | some (ev, l3) =>
      let mag : ℤ := intVal * (10 : ℤ) ^ fds.length + digitsVal fds
      some (JSValue.num ⟨if neg then -mag else mag, ev - (fds.length : ℤ)⟩, l3)

/-- A JSON number literal: `-? (0 | [1-9][0-9]*) frac? exp?`. -/
def parseNumber (l : List Char) : Option (JSValue × List Char) :=
  let st : Bool × List Char := match l with | '-' :: t => (true, t) | _ => (false, l)
  match st.2 with
  | [] => none
  | c :: t =>
    if c = '0' then parseNumberTail st.1 0 t
    else if c.isDigit then
      parseNumberTail st.1 (digitsVal ((c :: t).takeWhile Char.isDigit))
        ((c :: t).dropWhile Char.isDigit)
    else none

/-- Skip JSON whitespace. -/
def skipWsL (l : List Char) : List Char := l.dropWhile isJsonWs

mutual

/-- A JSON value. -/
def parseValue : Nat → List Char → Option (JSValue × List Char)
  | 0, _ => none
  | fuel + 1, l =>
    match l with
    | [] => none
    | c :: rest =>
      if c = '"' then
        (parseStringBody (rest.length + 1) rest).map fun p =>
          (JSValue.str (String.mk p.1), p.2)
      else if c = '[' then
        match skipWsL rest with
        | ']' :: r2 => some (JSValue.arr [], r2)
        | r1 => parseElems fuel r1 []
      else if c = '\x7b' then
        match skipWsL rest with
        | '\x7d' :: r2 => some (JSValue.obj [], r2)
        | r1 => parseMembers fuel r1 []
      else if l.take 4 = ['t', 'r', 'u', 'e'] then some (JSValue.bool true, l.drop 4)
      else if l.take 5 = ['f', 'a', 'l', 's', 'e'] then some (JSValue.bool false, l.drop 5)
      else if l.take 4 = ['n', 'u', 'l', 'l'] then some (JSValue.null, l.drop 4)
      else if c = '-' ∨ c.isDigit then parseNumber l
      else none

/-- Elements of a non-empty JSON array, positioned at a value. -/
def parseElems : Nat → List Char → List JSValue → Option (JSValue × List Char)
  | 0, _, _ => none
  | fuel + 1, l, acc =>
    match parseValue fuel l with
    | none => none
    | some (v, r) =>
      match skipWsL r with
      | ',' :: r2 => parseElems fuel (skipWsL r2) (acc ++ [v])
      | ']' :: r2 => some (JSValue.arr (acc ++ [v]), r2)
      | _ => none

/-- Members of a non-empty JSON object, positioned at a key. -/
def parseMembers : Nat → List Char → List (String × JSValue) →
    Option (JSValue × List Char)
  | 0, _, _ => none
  | fuel + 1, l, acc =>
    match l with
    | '"' :: rest =>
      match parseStringBody (rest.length + 1) rest with
      | none => none
      | some (key, r1) =>
        match skipWsL r1 with
        | ':' :: r2 =>
          match parseValue fuel (skipWsL r2) with
          | none => none
          | some (v, r3) =>
            match skipWsL r3 with
            | ',' :: r4 => parseMembers fuel (skipWsL r4) (acc ++ [(String.mk key, v)])
            | '\x7d' :: r4 => some (JSValue.obj (acc ++ [(String.mk key, v)]), r4)
            | _ => none
        | _ => none
    | _ => none

end

/-- `JSON.parse`: top-level production `ws value ws`, then end of input. -/
def jsonParse (s : String) : Option JSValue :=
  let l := jsonTrimL s.toList
  match parseValue (2 * l.length + 2) l with
  | some (v, r) => if r = [] then some v else none
  | none => none

/-! ## Code-fence extraction

Model of `content.match(/```(?:json)?\s*([\s\S]*?)```/)` from
`parseJsonResponse` (src/utils/llmHelper.js, line 61): the engine tries
each start position left to right; at a position beginning with three
backticks it greedily takes an optional literal `json` tag, greedily
skips `\s*`, and then the lazy group ends at the next three-backtick
run.  The greedy choices never need backtracking here because neither
the `json` tag nor whitespace can contain a backtick, so they cannot
consume a closing fence. -/

/-- The three-backtick fence delimiter. -/
def tplL : List Char := ['\x60', '\x60', '\x60']

/-- Does the input start with three backticks? -/
def tplPrefix (l : List Char) : Bool :=
  tplL.isPrefixOf l

/-- Characters up to (excluding) the next three-backtick run, or `none`
if there is no such run. -/
def findClose : List Char → Option (List Char)
  | [] => none
  | c :: rest =>
    if tplPrefix (c :: rest) then some []
    else (findClose rest).map fun g => c :: g

/-- After an opening fence: optional `json` tag, `\s*`, then the lazy
group up to the closing fence. -/
def afterOpen (l : List Char) : Option (List Char) :=
  let l1 := if ('j' :: 's' :: 'o' :: 'n' :: []).isPrefixOf l then l.drop 4 else l
  findClose (l1.dropWhile isJsWs)

/-- One match attempt at the current position. -/
def tryOpen (l : List Char) : Option (List Char) :=
  if tplPrefix l then afterOpen (l.drop 3) else none

/-- The regex search: first position whose attempt succeeds, left to
right; yields capture group 1. -/
def scanCB : List Char → Option (List Char)
  | [] => none
  | c :: rest =>
    match tryOpen (c :: rest) with
    | some g => some g
    | none => scanCB rest

/-- `parseJsonResponse` (src/utils/llmHelper.js, lines 59-71): extract a
fenced block if one matches (trimming the capture), otherwise use the
raw content; `JSON.parse` it, with `{}` as the fallback for a parse
error. -/
def parseJsonResponse (content : String) : JSValue :=
  let jsonStr : String :=
    match scanCB content.toList with
    | some g => String.mk (jsTrimL g)
    | none => content
  match jsonParse jsonStr with
  | some v => v
  | none => JSValue.obj []

/-! ## `Number` coercion -/

/-- Digits of a non-decimal integer literal in the given radix. -/
def radixNum (radix : ℤ) (digitOf : Char → Option Nat) (t : List Char) : JSNum :=
  if t.isEmpty then JSNum.nan
  else
    match t.foldl (fun acc c => acc.bind fun a => (digitOf c).map fun dv => a * radix + dv)
        (some 0) with
    | some n => JSNum.num ⟨n, 0⟩
    | none => JSNum.nan

/-- `StrUnsignedDecimalLiteral` without the `Infinity` form: digits,
optional fraction, optional exponent; at least one digit overall; the
whole input must be consumed. -/
def strUnsignedDec (l : List Char) : Option Dec :=
  let intDs := l.takeWhile Char.isDigit
  let l1 := l.dropWhile Char.isDigit
  let fracSplit : List Char × List Char :=
    match l1 with
    | '.' :: t => (t.takeWhile Char.isDigit, t.dropWhile Char.isDigit)
    | _ => ([], l1)
  let fds := fracSplit.1
  let l2 := if l1.isEmpty then l1 else if l1.head? = some '.' then fracSplit.2 else l1
  if intDs.isEmpty ∧ fds.isEmpty then none
  else
    let expSplit : Option (ℤ × List Char) :=
      match l2 with
      | e :: t =>
        if e = 'e' ∨ e = 'E' then
          let st : Bool × List Char :=
            match t with
            | '+' :: t2 => (false, t2)
            | '-' :: t2 => (true, t2)
            | _ => (false, t)
          let eds := st.2.takeWhile Char.isDigit
          if eds.isEmpty then none
          else some ((if st.1 then -digitsVal eds else digitsVal eds),
            st.2.dropWhile Char.isDigit)
        else some (0, l2)
      | [] => some (0, l2)
    match expSplit with
    | none => none
    | some (ev, l3) =>
      if l3.isEmpty then
        some ⟨digitsVal intDs * (10 : ℤ) ^ fds.length + digitsVal fds,
          ev - (fds.length : ℤ)⟩
      else none

/-- JavaScript `Number(string)` (`StringNumericLiteral`): trim
whitespace; empty means 0; optionally signed decimal or `Infinity`;
unsigned `0x`/`0o`/`0b` forms; anything else is NaN. -/
def strToNumber (s : String) : JSNum :=
  match jsTrimL s.toList with
  | [] => JSNum.num ⟨0, 0⟩
  | '0' :: 'x' :: t => radixNum 16 hexDigitVal t
  | '0' :: 'X' :: t => radixNum 16 hexDigitVal t
  | '0' :: 'o' :: t =>
    radixNum 8 (fun c => (hexDigitVal c).bind fun v => if v < 8 then some v else none) t
  | '0' :: 'O' :: t =>
    radixNum 8 (fun c => (hexDigitVal c).bind fun v => if v < 8 then some v else none) t
  | '0' :: 'b' :: t =>
    radixNum 2 (fun c => (hexDigitVal c).bind fun v => if v < 2 then some v else none) t
  | '0' :: 'B' :: t =>
    radixNum 2 (fun c => (hexDigitVal c).bind fun v => if v < 2 then some v else none) t
  | l =>
    let st : Bool × List Char :=
      match l with
      | '+' :: t => (false, t)
      | '-' :: t => (true, t)
      | _ => (false, l)
    if st.2 = ['I', 'n', 'f', 'i', 'n', 'i', 't', 'y'] then JSNum.inf st.1
    else
      match strUnsignedDec st.2 with
      | some d => JSNum.num (if st.1 then ⟨-d.mant, d.expo⟩ else d)
      | none => JSNum.nan

/-- JavaScript `Number(value)` on JSON-parse-producible values.  Arrays
and plain objects coerce through their string form; this is modelled for
the cases that round-trip through the same numeric value (empty array,
singleton arrays of null/number/string/array) and conservatively returns
NaN for the rest, which is exact for booleans-in-arrays, multi-element
arrays and plain objects.  No code path of the repository and no claim
depends on the remaining composite cases. -/
def jsToNumber : JSValue → JSNum
  | JSValue.null => JSNum.num ⟨0, 0⟩
  | JSValue.bool b => JSNum.num ⟨if b then 1 else 0, 0⟩
  | JSValue.num d => JSNum.num d
  | JSValue.str s => strToNumber s
  | JSValue.arr [] => JSNum.num ⟨0, 0⟩
  | JSValue.arr [JSValue.bool _] => JSNum.nan
  | JSValue.arr [v] => jsToNumber v
  | JSValue.arr _ => JSNum.nan
  | JSValue.obj _ => JSNum.nan

/-- `Number` of a field access result: `Number(undefined)` is NaN. -/
def jsToNumberField : Option JSValue → JSNum
  | none => JSNum.nan
  | some v => jsToNumber v

/-! ## The normalizer and `categorizeMessage` -/

/-- Property access `value[key]` on a non-null value: last-wins lookup in
an object (duplicate JSON keys overwrite), `undefined` (`none`) on
primitives and arrays. -/
def jsField (v : JSValue) (key : String) : Option JSValue :=
  match v with
  | JSValue.obj fields =>
    fields.foldl (fun acc kv => if kv.1 = key then some kv.2 else acc) none
  | _ => none

/-- The reasoning string synthesized by the normalizer when the parsed
reasoning is absent or blank. -/
def synthReasoning (category sentiment : String) (priority : ℤ) : String :=
  "Category: " ++ category ++ ", Sentiment: " ++ sentiment ++ ", Priority: " ++
    toString priority ++ "."

/-- The `category` computation of the normalizer: keep the trimmed parsed
string when it is a string with non-empty trim, else `Unknown`. -/
def normCategory (parsed : JSValue) : String :=
  match jsField parsed "category" with
  | some (JSValue.str s) =>
    if jsTrimL s.toList ≠ [] then String.mk (jsTrimL s.toList) else "Unknown"
  | _ => "Unknown"

/-- The `sentiment` computation of the normalizer: `Angry` exactly on the
strict equality `parsed.sentiment === 'Angry'`, else `Neutral`. -/
def normSentiment (parsed : JSValue) : String :=
  match jsField parsed "sentiment" with
  | some (JSValue.str s) => if s = "Angry" then "Angry" else "Neutral"
  | _ => "Neutral"

/-- The integer-and-range check of the normalizer: a coerced number that
is an integer in `[1,5]` is kept; everything else becomes 3
(`!Number.isInteger(x) || x < 1 || x > 5`). -/
def clampPriority (x : JSNum) : ℤ :=
  match x with
  | JSNum.num d =>
    match decAsInt? d with
    | some n => if 1 ≤ n ∧ n ≤ 5 then n else 3
    | none => 3
  | _ => 3

/-- The `priority_score` computation of the normalizer:
`Number(parsed.priority_score)`, kept when `Number.isInteger` holds and
the value lies in `[1,5]`, else 3. -/
def normPriority (parsed : JSValue) : ℤ :=
  clampPriority (jsToNumberField (jsField parsed "priority_score"))

/-- The `reasoning` computation of the normalizer: keep the trimmed
parsed string when non-blank, else synthesize from the other fields. -/
def normReasoning (parsed : JSValue) : String :=
  match jsField parsed "reasoning" with
  | some (JSValue.str s) =>
    if jsTrimL s.toList ≠ [] then String.mk (jsTrimL s.toList)
    else synthReasoning (normCategory parsed) (normSentiment parsed) (normPriority parsed)
  | _ => synthReasoning (normCategory parsed) (normSentiment parsed) (normPriority parsed)

/-- `normalizeCategorizationResult` (src/utils/llmHelper.js, lines
76-94).  Accessing `parsed.category` on `null` throws a `TypeError` in
JavaScript; that is the `Except.error` case (caught by
`categorizeMessage`).  On any non-null value the function is total. -/
def normalizeCategorizationResult (parsed : JSValue) : Except Unit ClassificationResult :=
  match parsed with
  | JSValue.null => Except.error ()
  | _ =>
    Except.ok
      ⟨normCategory parsed, normSentiment parsed, normPriority parsed, normReasoning parsed⟩

/-- Observable outcome of the remote Groq call issued by
`categorizeMessage`: the reply text of a successful call (the string
`response.choices[0].message.content`), or a transport/API failure. -/
inductive RemoteOutcome where
  | success (content : String)
  | failure

/-- `categorizeMessage` (src/utils/llmHelper.js, lines 21-52): on a
successful call, trim the reply, extract/parse it and normalize; any
failure — of the request itself, or an exception thrown later inside the
`try` block (the normalizer on JSON `null`) — is caught and answered by
the heuristic `getMockCategorization`. -/
def categorizeMessage (message : String) (outcome : RemoteOutcome) : ClassificationResult :=
  match outcome with
  | RemoteOutcome.failure => getMockCategorization message
  | RemoteOutcome.success content =>
    match normalizeCategorizationResult (parseJsonResponse (jsTrim content)) with
    | Except.ok r => r
    | Except.error _ => getMockCategorization message

/-- The JavaScript object literal returned by the normalizer, as a
`JSValue` (used to state idempotence of normalization). -/
def resultToJSValue (r : ClassificationResult) : JSValue :=
  JSValue.obj
    [("category", JSValue.str r.category),
     ("sentiment", JSValue.str r.sentiment),
     ("priority_score", JSValue.num ⟨r.priority_score, 0⟩),
     ("reasoning", JSValue.str r.reasoning)]

/-- A reply wrapped in a fenced code block tagged `json`. -/
def wrapJson (j : String) : String := "```json\n" ++ j ++ "\n```"

/-! ## Supporting lemmas: trimming -/

theorem dropWhile_self_idem (p : Char → Bool) (l : List Char) :
    (l.dropWhile p).dropWhile p = l.dropWhile p := by
  induction l with
  | nil => rfl
  | cons c t ih =>
    by_cases h : p c
    · simp [List.dropWhile_cons, h, ih]
    · simp [List.dropWhile_cons, h]

theorem dropWhileEnd_idem (p : Char → Bool) (l : List Char) :
    dropWhileEnd p (dropWhileEnd p l) = dropWhileEnd p l := by
  unfold dropWhileEnd
  rw [List.reverse_reverse, dropWhile_self_idem]

theorem dropWhileEnd_front (p : Char → Bool) (l : List Char) :
    dropWhileEnd p l <+: l := by
  unfold dropWhileEnd
  have h : List.dropWhile p l.reverse <:+ l.reverse := List.dropWhile_suffix p
  obtain ⟨s, hs⟩ := h
  refine ⟨s.reverse, ?_⟩
  simpa using congrArg List.reverse hs

theorem dropWhile_length_le (p : Char → Bool) (l : List Char) :
    (l.dropWhile p).length ≤ l.length := by
  induction l with
  | nil => simp
  | cons c t ih =>
    by_cases h : p c
    · simp only [List.dropWhile_cons, h, if_true]
      simp only [List.length_cons]
      omega
    · simp [List.dropWhile_cons, h]

theorem prefix_dropWhile_eq_self (p : Char → Bool) {x l : List Char}
    (hx : x <+: l) (h : l.dropWhile p = l) : x.dropWhile p = x := by
  cases x with
  | nil => rfl
  | cons c t =>
    cases l with
    | nil => simp at hx
    | cons d u =>
      obtain ⟨r, hr⟩ := hx
      have hcd : c = d := by injection hr
      have hpd : p d = false := by
        by_contra hp
        rw [Bool.not_eq_false] at hp
        have h2 : (d :: u).dropWhile p = u.dropWhile p := by
          simp [List.dropWhile_cons, hp]
        rw [h] at h2
        have h3 := congrArg List.length h2
        have hle := dropWhile_length_le p u
        simp at h3
        omega
      simp [List.dropWhile_cons, hcd, hpd]

theorem jsTrimL_idem (l : List Char) : jsTrimL (jsTrimL l) = jsTrimL l := by
  unfold jsTrimL
  rw [prefix_dropWhile_eq_self isJsWs (dropWhileEnd_front _ _) (dropWhile_self_idem _ _),
    dropWhileEnd_idem]

theorem jsonTrimL_idem (l : List Char) : jsonTrimL (jsonTrimL l) = jsonTrimL l := by
  unfold jsonTrimL
  rw [prefix_dropWhile_eq_self isJsonWs (dropWhileEnd_front _ _) (dropWhile_self_idem _ _),
    dropWhileEnd_idem]

theorem jsTrimL_dropWhile (l : List Char) :
    jsTrimL (l.dropWhile isJsWs) = jsTrimL l := by
  unfold jsTrimL
  rw [dropWhile_self_idem]

theorem dropWhileEnd_concat_pos (p : Char → Bool) (l : List Char) {c : Char}
    (h : p c = true) : dropWhileEnd p (l ++ [c]) = dropWhileEnd p l := by
  unfold dropWhileEnd
  rw [List.reverse_append]
  simp [List.dropWhile_cons, h]

theorem jsTrimL_concat_ws (l : List Char) {c : Char} (h : isJsWs c = true) :
    jsTrimL (l ++ [c]) = jsTrimL l := by
  unfold jsTrimL
  rw [List.dropWhile_append]
  by_cases he : (l.dropWhile isJsWs).isEmpty
  · rw [if_pos he]
    rw [List.isEmpty_iff] at he
    rw [he]
    simp [List.dropWhile_cons, h, dropWhileEnd]
  · rw [if_neg he, dropWhileEnd_concat_pos _ _ h]

theorem jsTrimL_sandwich {a b : Char} (m : List Char)
    (ha : isJsWs a = false) (hb : isJsWs b = false) :
    jsTrimL (a :: (m ++ [b])) = a :: (m ++ [b]) := by
  unfold jsTrimL
  have h1 : (a :: (m ++ [b])).dropWhile isJsWs = a :: (m ++ [b]) := by
    simp [List.dropWhile_cons, ha]
  rw [h1]
  unfold dropWhileEnd
  have h2 : (a :: (m ++ [b])).reverse = b :: (m.reverse ++ [a]) := by simp
  rw [h2]
  simp [List.dropWhile_cons, hb]

theorem jsTrimL_singleton {a : Char} (ha : isJsWs a = false) :
    jsTrimL [a] = [a] := by
  simp [jsTrimL, dropWhileEnd, List.dropWhile_cons, ha]

/-! ## Supporting lemmas: exact decimals -/

theorem decAsInt?_some {d : Dec} {n : ℤ} (h : decAsInt? d = some n) :
    toRatDec d = (n : ℚ) := by
  unfold decAsInt? at h
  unfold toRatDec
  split_ifs at h with h1 h2
  · injection h with hn
    subst hn
    have hc : ((d.mant * 10 ^ d.expo.toNat : ℤ) : ℚ) =
        (d.mant : ℚ) * (10 : ℚ) ^ (d.expo.toNat : ℕ) := by
      push_cast
      ring
    rw [hc, ← zpow_natCast (10 : ℚ) d.expo.toNat, Int.toNat_of_nonneg h1]
  · injection h with hn
    subst hn
    have hk : d.expo = -(((-d.expo).toNat : ℕ) : ℤ) := by
      rw [Int.toNat_of_nonneg (by omega)]
      ring
    set k := (-d.expo).toNat with hkdef
    have hdvd : (10 : ℤ) ^ k ∣ d.mant := Int.dvd_of_emod_eq_zero h2
    have hmul : (d.mant / 10 ^ k) * 10 ^ k = d.mant := Int.ediv_mul_cancel hdvd
    have hcast : ((d.mant / 10 ^ k : ℤ) : ℚ) * (10 : ℚ) ^ k = (d.mant : ℚ) := by
      exact_mod_cast congrArg (fun z : ℤ => (z : ℚ)) hmul
    have hne : ((10 : ℚ) ^ k) ≠ 0 := pow_ne_zero _ (by norm_num)
    rw [hk, zpow_neg, zpow_natCast, ← hcast]
    field_simp

theorem decAsInt?_none {d : Dec} (h : decAsInt? d = none) (n : ℤ) :
    toRatDec d ≠ (n : ℚ) := by
  unfold decAsInt? at h
  split_ifs at h with h1 h2
  intro hEq
  unfold toRatDec at hEq
  have hk : d.expo = -(((-d.expo).toNat : ℕ) : ℤ) := by
    rw [Int.toNat_of_nonneg (by omega)]
    ring
  set k := (-d.expo).toNat with hkdef
  rw [hk, zpow_neg, zpow_natCast] at hEq
  have hne : ((10 : ℚ) ^ k) ≠ 0 := pow_ne_zero _ (by norm_num)
  have hEq2 : (d.mant : ℚ) = (n : ℚ) * (10 : ℚ) ^ k := by
    field_simp at hEq
    linarith [hEq]
  have hEq3 : d.mant = n * 10 ^ k := by exact_mod_cast hEq2
  have hdvd : (10 : ℤ) ^ k ∣ d.mant := ⟨n, by rw [hEq3]; ring⟩
  exact h2 (Int.emod_eq_zero_of_dvd hdvd)

/-! ## Supporting lemmas: the normalizer -/

theorem normalize_ok {parsed : JSValue} (h : parsed ≠ JSValue.null) :
    normalizeCategorizationResult parsed =
      Except.ok ⟨normCategory parsed, normSentiment parsed, normPriority parsed,
        normReasoning parsed⟩ := by
  cases parsed
  case null => exact absurd rfl h
  all_goals rfl

theorem clampPriority_bounds (x : JSNum) :
    1 ≤ clampPriority x ∧ clampPriority x ≤ 5 := by
  rcases x with _ | neg | d
  · simp [clampPriority]
  · simp [clampPriority]
  · simp only [clampPriority]
    rcases hd : decAsInt? d with _ | n
    · show (1 : ℤ) ≤ 3 ∧ (3 : ℤ) ≤ 5
      omega
    · show 1 ≤ (if 1 ≤ n ∧ n ≤ 5 then n else 3) ∧ (if 1 ≤ n ∧ n ≤ 5 then n else 3) ≤ 5
      by_cases h15 : 1 ≤ n ∧ n ≤ 5 <;> omega

theorem normPriority_bounds (parsed : JSValue) :
    1 ≤ normPriority parsed ∧ normPriority parsed ≤ 5 :=
  clampPriority_bounds _

theorem synthReasoning_ne_empty (c s : String) (p : ℤ) :
    synthReasoning c s p ≠ "" := by
  intro h
  have h2 := congrArg (fun t : String => t.data.getLast?) h
  simp only [synthReasoning, String.data_append] at h2
  rw [List.getLast?_concat] at h2
  simp at h2

theorem normSentiment_cases (parsed : JSValue) :
    normSentiment parsed = "Neutral" ∨ normSentiment parsed = "Angry" := by
  unfold normSentiment
  rcases h : jsField parsed "sentiment" with _ | v
  · exact Or.inl rfl
  · rcases v with _ | b | d | s | el | fl
    · exact Or.inl rfl
    · exact Or.inl rfl
    · exact Or.inl rfl
    · by_cases hs : s = "Angry"
      · right
        simp [hs]
      · left
        simp [hs]
    · exact Or.inl rfl
    · exact Or.inl rfl

theorem resultToJSValue_ne_null (r : ClassificationResult) :
    resultToJSValue r ≠ JSValue.null := by
  intro h
  simp [resultToJSValue] at h

theorem decAsInt?_int (p : ℤ) : decAsInt? ⟨p, 0⟩ = some p := by
  unfold decAsInt?
  rw [if_pos (le_refl 0)]
  simp

theorem synthReasoning_data (c s : String) (p : ℤ) :
    (synthReasoning c s p).data =
      'C' :: (("ategory: ".data ++ c.data ++ ", Sentiment: ".data ++ s.data ++
        ", Priority: ".data ++ (toString p).data) ++ ['.']) := by
  simp [synthReasoning, String.data_append]

theorem synthReasoning_trim_fixed (c s : String) (p : ℤ) :
    jsTrimL (synthReasoning c s p).data = (synthReasoning c s p).data := by
  rw [synthReasoning_data]
  exact jsTrimL_sandwich _ (by decide) (by decide)

theorem unknown_trim_fixed :
    jsTrimL ("Unknown" : String).data = ("Unknown" : String).data ∧
      ("Unknown" : String).data ≠ [] := by decide

theorem normCategory_trim_fixed (parsed : JSValue) :
    jsTrimL (normCategory parsed).data = (normCategory parsed).data ∧
      (normCategory parsed).data ≠ [] := by
  unfold normCategory
  rcases jsField parsed "category" with _ | v
  · exact unknown_trim_fixed
  · rcases v with _ | b | d | s | el | fl
    · exact unknown_trim_fixed
    · exact unknown_trim_fixed
    · exact unknown_trim_fixed
    · show jsTrimL (if jsTrimL s.toList ≠ [] then String.mk (jsTrimL s.toList)
          else "Unknown").data = (if jsTrimL s.toList ≠ [] then String.mk (jsTrimL s.toList)
          else "Unknown").data ∧
        (if jsTrimL s.toList ≠ [] then String.mk (jsTrimL s.toList)
          else "Unknown").data ≠ []
      by_cases ht : jsTrimL s.toList ≠ []
      · rw [if_pos ht]
        exact ⟨jsTrimL_idem s.data, ht⟩
      · rw [if_neg ht]
        exact unknown_trim_fixed
    · exact unknown_trim_fixed
    · exact unknown_trim_fixed

theorem normReasoning_ne_empty (parsed : JSValue) :
    normReasoning parsed ≠ "" := by
  unfold normReasoning
  rcases h : jsField parsed "reasoning" with _ | v
  · exact synthReasoning_ne_empty _ _ _
  · rcases v with _ | b | d | s | el | fl
    · exact synthReasoning_ne_empty _ _ _
    · exact synthReasoning_ne_empty _ _ _
    · exact synthReasoning_ne_empty _ _ _
    · show (if jsTrimL s.toList ≠ [] then String.mk (jsTrimL s.toList)
        else synthReasoning (normCategory parsed) (normSentiment parsed)
          (normPriority parsed)) ≠ ""
      by_cases ht : jsTrimL s.toList ≠ []
      · rw [if_pos ht]
        intro hEq
        have h3 := congrArg String.data hEq
        simp at h3
        exact ht h3
      · rw [if_neg ht]
        exact synthReasoning_ne_empty _ _ _
    · exact synthReasoning_ne_empty _ _ _
    · exact synthReasoning_ne_empty _ _ _

theorem normReasoning_trim_fixed (parsed : JSValue) :
    jsTrimL (normReasoning parsed).data = (normReasoning parsed).data := by
  unfold normReasoning
  rcases jsField parsed "reasoning" with _ | v
  · exact synthReasoning_trim_fixed _ _ _
  · rcases v with _ | b | d | s | el | fl
    · exact synthReasoning_trim_fixed _ _ _
    · exact synthReasoning_trim_fixed _ _ _
    · exact synthReasoning_trim_fixed _ _ _
    · show jsTrimL (if jsTrimL s.toList ≠ [] then String.mk (jsTrimL s.toList)
          else synthReasoning (normCategory parsed) (normSentiment parsed)
            (normPriority parsed)).data =
        (if jsTrimL s.toList ≠ [] then String.mk (jsTrimL s.toList)
          else synthReasoning (normCategory parsed) (normSentiment parsed)
            (normPriority parsed)).data
      by_cases ht : jsTrimL s.toList ≠ []
      · rw [if_pos ht]
        exact jsTrimL_idem s.data
      · rw [if_neg ht]
        exact synthReasoning_trim_fixed _ _ _
    · exact synthReasoning_trim_fixed _ _ _
    · exact synthReasoning_trim_fixed _ _ _

theorem mock_valid (m : String) :
    ((getMockCategorization m).sentiment = "Neutral" ∨
      (getMockCategorization m).sentiment = "Angry") ∧
    1 ≤ (getMockCategorization m).priority_score ∧
    (getMockCategorization m).priority_score ≤ 5 ∧
    (getMockCategorization m).reasoning ≠ "" ∧
    (getMockCategorization m).category ∈
      (["Billing Issue", "Technical Problem", "Feature Request", "General Inquiry",
        "Unknown"] : List String) := by
  simp only [getMockCategorization]
  cases hA : isAngryMsg m <;> split_ifs <;> exact (by decide)

theorem normalize_ok_valid {parsed : JSValue} {r : ClassificationResult}
    (h : normalizeCategorizationResult parsed = Except.ok r) :
    (r.sentiment = "Neutral" ∨ r.sentiment = "Angry") ∧
    1 ≤ r.priority_score ∧ r.priority_score ≤ 5 ∧ r.reasoning ≠ "" := by
  have hnn : parsed ≠ JSValue.null := by
    intro hp
    subst hp
    exact Except.noConfusion h
  rw [normalize_ok hnn] at h
  injection h with h2
  subst h2
  exact ⟨normSentiment_cases parsed, (normPriority_bounds parsed).1,
    (normPriority_bounds parsed).2, normReasoning_ne_empty parsed⟩

theorem jsTrim_eq_empty_iff (s : String) : jsTrim s = "" ↔ jsTrimL s.toList = [] := by
  constructor
  · intro h
    have h2 := congrArg String.data h
    simpa [jsTrim] using h2
  · intro h
    rw [show jsTrim s = String.mk (jsTrimL s.toList) from rfl, h]

/-! ## Claims -/

/-- Claim C1: for every message and every outcome of the remote call
(success with arbitrary reply text, or failure), `categorizeMessage`
terminates without throwing (it is a total Lean function, with every
internal exception absorbed) and returns a result whose sentiment is
`Neutral` or `Angry`, whose priority score is an integer in `[1,5]`
(integrality is carried by the `ℤ` type of the field), and whose
reasoning is non-empty; and the heuristic fallback only ever emits one
of the five canonical categories. -/
theorem claim1_classify_total_and_valid (message : String) (outcome : RemoteOutcome) :
    ((categorizeMessage message outcome).sentiment = "Neutral" ∨
      (categorizeMessage message outcome).sentiment = "Angry") ∧
    1 ≤ (categorizeMessage message outcome).priority_score ∧
    (categorizeMessage message outcome).priority_score ≤ 5 ∧
    (categorizeMessage message outcome).reasoning ≠ "" ∧
    (getMockCategorization message).category ∈
      (["Billing Issue", "Technical Problem", "Feature Request", "General Inquiry",
        "Unknown"] : List String) := by
  obtain ⟨m1, m2, m3, m4, m5⟩ := mock_valid message
  cases outcome with
  | failure => exact ⟨m1, m2, m3, m4, m5⟩
  | success content =>
    rcases hn : normalizeCategorizationResult (parseJsonResponse (jsTrim content))
      with e | r
    · have hc : categorizeMessage message (RemoteOutcome.success content) =
          getMockCategorization message := by
        simp only [categorizeMessage, hn]
      rw [hc]
      exact ⟨m1, m2, m3, m4, m5⟩
    · have hc : categorizeMessage message (RemoteOutcome.success content) = r := by
        simp only [categorizeMessage, hn]
      rw [hc]
      obtain ⟨v1, v2, v3, v4⟩ := normalize_ok_valid hn
      exact ⟨v1, v2, v3, v4, m5⟩

/-- Claim C2 counterexample: the reply text `"null"` is successfully
returned by the remote call and parses as JSON `null`, on which the
normalizer throws; `categorizeMessage` catches the exception and answers
with the heuristic — contradicting "the fallback is reached only when
the remote request itself fails" and "never the heuristic result". -/
theorem claim2_counterexample :
    normalizeCategorizationResult (parseJsonResponse (jsTrim "null")) =
      Except.error () ∧
    categorizeMessage "hello" (RemoteOutcome.success "null") =
      getMockCategorization "hello" :=
  ⟨rfl, rfl⟩

/-- Claim C2, amended: for every reply text whose parsed value is not
JSON `null`, the result comes from normalization of the parsed reply —
never from the heuristic; and whenever the reply fails to parse (the
extracted text becomes the empty object `{}`), the normalization
defaults are category `Unknown`, sentiment `Neutral`, priority 3. -/
theorem claim2_no_fallback_on_reply (message content : String)
    (h : parseJsonResponse (jsTrim content) ≠ JSValue.null) :
    ∃ r, normalizeCategorizationResult (parseJsonResponse (jsTrim content)) =
        Except.ok r ∧
      categorizeMessage message (RemoteOutcome.success content) = r ∧
      (parseJsonResponse (jsTrim content) = JSValue.obj [] →
        r = ⟨"Unknown", "Neutral", 3,
          "Category: Unknown, Sentiment: Neutral, Priority: 3."⟩) := by
  refine ⟨_, normalize_ok h, ?_, ?_⟩
  · simp only [categorizeMessage, normalize_ok h]
  · intro hobj
    rw [hobj]
    rfl

theorem claim2_witness :
    parseJsonResponse (jsTrim "not json") ≠ JSValue.null ∧
    (∃ r, normalizeCategorizationResult (parseJsonResponse (jsTrim "not json")) =
        Except.ok r ∧
      categorizeMessage "x" (RemoteOutcome.success "not json") = r ∧
      (parseJsonResponse (jsTrim "not json") = JSValue.obj [] →
        r = ⟨"Unknown", "Neutral", 3,
          "Category: Unknown, Sentiment: Neutral, Priority: 3."⟩)) :=
  ⟨by rw [show parseJsonResponse (jsTrim "not json") = JSValue.obj [] from rfl]; simp,
    claim2_no_fallback_on_reply "x" "not json"
      (by rw [show parseJsonResponse (jsTrim "not json") = JSValue.obj [] from rfl]; simp)⟩

/-- Claim C3: for every parsed (non-null) value, normalization keeps the
trimmed parsed `category` when it is a string with non-empty trim and
uses `Unknown` otherwise; sets sentiment to `Angry` exactly when the
parsed sentiment field is the string `Angry` (and `Neutral` otherwise);
and keeps the trimmed parsed `reasoning` when it is a string with
non-empty trim, synthesizing
`"Category: {category}, Sentiment: {sentiment}, Priority: {priority}."`
otherwise. -/
theorem claim3_normalize_fields (parsed : JSValue) (h : parsed ≠ JSValue.null) :
    ∃ r, normalizeCategorizationResult parsed = Except.ok r ∧
      r.category = (match jsField parsed "category" with
        | some (JSValue.str s) => if jsTrim s ≠ "" then jsTrim s else "Unknown"
        | _ => "Unknown") ∧
      (r.sentiment = "Angry" ↔ jsField parsed "sentiment" = some (JSValue.str "Angry")) ∧
      (r.sentiment ≠ "Angry" → r.sentiment = "Neutral") ∧
      r.reasoning = (match jsField parsed "reasoning" with
        | some (JSValue.str s) => if jsTrim s ≠ "" then jsTrim s
            else synthReasoning r.category r.sentiment r.priority_score
        | _ => synthReasoning r.category r.sentiment r.priority_score) := by
  refine ⟨_, normalize_ok h, ?_, ?_, ?_, ?_⟩
  · show normCategory parsed = _
    unfold normCategory
    rcases jsField parsed "category" with _ | v
    · rfl
    · rcases v with _ | b | d | s | el | fl
      · rfl
      · rfl
      · rfl
      · show (if jsTrimL s.toList ≠ [] then String.mk (jsTrimL s.toList)
            else "Unknown") = (if jsTrim s ≠ "" then jsTrim s else "Unknown")
        by_cases ht : jsTrimL s.toList = []
        · rw [if_neg (not_not_intro ht),
            if_neg (not_not_intro ((jsTrim_eq_empty_iff s).mpr ht))]
        · rw [if_pos ht, if_pos (fun hc => ht ((jsTrim_eq_empty_iff s).mp hc))]
          rfl
      · rfl
      · rfl
  · show (normSentiment parsed = "Angry" ↔ _)
    unfold normSentiment
    rcases jsField parsed "sentiment" with _ | v
    · simp
    · rcases v with _ | b | d | s | el | fl
      · simp
      · simp
      · simp
      · by_cases hs : s = "Angry"
        · simp [hs]
        · simp [hs]
      · simp
      · simp
  · intro hne
    rcases normSentiment_cases parsed with hn | hn
    · exact hn
    · exact absurd hn hne
  · show normReasoning parsed = _
    unfold normReasoning
    rcases jsField parsed "reasoning" with _ | v
    · rfl
    · rcases v with _ | b | d | s | el | fl
      · rfl
      · rfl
      · rfl
      · show (if jsTrimL s.toList ≠ [] then String.mk (jsTrimL s.toList)
            else synthReasoning (normCategory parsed) (normSentiment parsed)
              (normPriority parsed)) =
          (if jsTrim s ≠ "" then jsTrim s
            else synthReasoning (normCategory parsed) (normSentiment parsed)
              (normPriority parsed))
        by_cases ht : jsTrimL s.toList = []
        · rw [if_neg (not_not_intro ht),
            if_neg (not_not_intro ((jsTrim_eq_empty_iff s).mpr ht))]
        · rw [if_pos ht, if_pos (fun hc => ht ((jsTrim_eq_empty_iff s).mp hc))]
          rfl
      · rfl
      · rfl

theorem claim3_witness :
    (JSValue.obj [("category", JSValue.str "  Billing Issue "),
        ("sentiment", JSValue.str "Angry"),
        ("reasoning", JSValue.str " ok ")] : JSValue) ≠ JSValue.null ∧
    (∃ r, normalizeCategorizationResult
          (JSValue.obj [("category", JSValue.str "  Billing Issue "),
            ("sentiment", JSValue.str "Angry"), ("reasoning", JSValue.str " ok ")]) =
        Except.ok r ∧
      r.category = (match jsField (JSValue.obj [("category", JSValue.str "  Billing Issue "),
            ("sentiment", JSValue.str "Angry"), ("reasoning", JSValue.str " ok ")])
            "category" with
        | some (JSValue.str s) => if jsTrim s ≠ "" then jsTrim s else "Unknown"
        | _ => "Unknown") ∧
      (r.sentiment = "Angry" ↔
        jsField (JSValue.obj [("category", JSValue.str "  Billing Issue "),
            ("sentiment", JSValue.str "Angry"), ("reasoning", JSValue.str " ok ")])
          "sentiment" = some (JSValue.str "Angry")) ∧
      (r.sentiment ≠ "Angry" → r.sentiment = "Neutral") ∧
      r.reasoning = (match jsField (JSValue.obj [("category", JSValue.str "  Billing Issue "),
            ("sentiment", JSValue.str "Angry"), ("reasoning", JSValue.str " ok ")])
            "reasoning" with
        | some (JSValue.str s) => if jsTrim s ≠ "" then jsTrim s
            else synthReasoning r.category r.sentiment r.priority_score
        | _ => synthReasoning r.category r.sentiment r.priority_score)) :=
  ⟨by simp,
    claim3_normalize_fields
      (JSValue.obj [("category", JSValue.str "  Billing Issue "),
        ("sentiment", JSValue.str "Angry"), ("reasoning", JSValue.str " ok ")])
      (by simp)⟩

/-- Characterization of the normalized priority: either the coerced
field value is an integer `n` in `[1,5]` and the normalizer keeps `n`,
or no such integer exists and the normalizer uses 3. -/
theorem normPriority_eq (parsed : JSValue) :
    (∃ (d : Dec) (n : ℤ), jsToNumberField (jsField parsed "priority_score") = JSNum.num d ∧
        toRatDec d = (n : ℚ) ∧ 1 ≤ n ∧ n ≤ 5 ∧ normPriority parsed = n) ∨
      ((¬ ∃ (d : Dec) (n : ℤ), jsToNumberField (jsField parsed "priority_score") = JSNum.num d ∧
          toRatDec d = (n : ℚ) ∧ 1 ≤ n ∧ n ≤ 5) ∧ normPriority parsed = 3) := by
  unfold normPriority
  rcases hx : jsToNumberField (jsField parsed "priority_score") with _ | neg | d
  · refine Or.inr ⟨?_, rfl⟩
    rintro ⟨d, n, h1, h2⟩
    cases h1
  · refine Or.inr ⟨?_, rfl⟩
    rintro ⟨d, n, h1, h2⟩
    cases h1
  · simp only [clampPriority]
    rcases hd : decAsInt? d with _ | n
    · refine Or.inr ⟨?_, rfl⟩
      rintro ⟨d2, n2, h1, h2, h3, h4⟩
      injection h1 with h1
      subst h1
      exact decAsInt?_none hd n2 h2
    · by_cases h15 : 1 ≤ n ∧ n ≤ 5
      · refine Or.inl ⟨d, n, rfl, decAsInt?_some hd, h15.1, h15.2, ?_⟩
        show (if 1 ≤ n ∧ n ≤ 5 then n else 3) = n
        rw [if_pos h15]
      · refine Or.inr ⟨?_, ?_⟩
        · rintro ⟨d2, n2, h1, h2, h3, h4⟩
          injection h1 with h1
          subst h1
          have hn2 : toRatDec d = (n : ℚ) := decAsInt?_some hd
          rw [hn2] at h2
          have hnn2 : n = n2 := by exact_mod_cast h2
          subst hnn2
          exact h15 ⟨h3, h4⟩
        · show (if 1 ≤ n ∧ n ≤ 5 then n else 3) = 3
          rw [if_neg h15]

/-- Claim C4 counterexample: the parsed value `"5"` — a string, hence not
an integer — is claimed to normalize to 3, but `Number("5")` coerces to
the in-range integer 5 and the code keeps it: the normalized priority is
5, not 3. -/
theorem claim4_counterexample :
    normalizeCategorizationResult (JSValue.obj [("priority_score", JSValue.str "5")]) =
      Except.ok ⟨"Unknown", "Neutral", 5,
        "Category: Unknown, Sentiment: Neutral, Priority: 5."⟩ ∧
    (5 : ℤ) ≠ 3 :=
  ⟨rfl, by decide⟩

/-- Claim C4, amended: the parsed `priority_score` is first coerced with
`Number`; when the coerced value is an integer `n` in `[1,5]` it is kept
(so the string `"5"` yields 5), and in every other case — no numeric
coercion at all, a non-integer, or an out-of-range integer, e.g. the
number 0 or the string `"high"` — the normalized priority is 3. -/
theorem claim4_priority_coercion (parsed : JSValue) (h : parsed ≠ JSValue.null) :
    ∃ r, normalizeCategorizationResult parsed = Except.ok r ∧
      ((∃ (d : Dec) (n : ℤ), jsToNumberField (jsField parsed "priority_score") = JSNum.num d ∧
          toRatDec d = (n : ℚ) ∧ 1 ≤ n ∧ n ≤ 5 ∧ r.priority_score = n) ∨
        ((¬ ∃ (d : Dec) (n : ℤ),
            jsToNumberField (jsField parsed "priority_score") = JSNum.num d ∧
            toRatDec d = (n : ℚ) ∧ 1 ≤ n ∧ n ≤ 5) ∧ r.priority_score = 3)) :=
  ⟨_, normalize_ok h, normPriority_eq parsed⟩

theorem claim4_witness :
    (JSValue.obj [("priority_score", JSValue.num ⟨0, 0⟩)] : JSValue) ≠ JSValue.null ∧
    (∃ r, normalizeCategorizationResult
          (JSValue.obj [("priority_score", JSValue.num ⟨0, 0⟩)]) = Except.ok r ∧
      ((∃ (d : Dec) (n : ℤ), jsToNumberField (jsField
            (JSValue.obj [("priority_score", JSValue.num ⟨0, 0⟩)])
            "priority_score") = JSNum.num d ∧
          toRatDec d = (n : ℚ) ∧ 1 ≤ n ∧ n ≤ 5 ∧ r.priority_score = n) ∨
        ((¬ ∃ (d : Dec) (n : ℤ), jsToNumberField (jsField
              (JSValue.obj [("priority_score", JSValue.num ⟨0, 0⟩)])
              "priority_score") = JSNum.num d ∧
            toRatDec d = (n : ℚ) ∧ 1 ≤ n ∧ n ≤ 5) ∧ r.priority_score = 3))) :=
  ⟨by simp,
    claim4_priority_coercion (JSValue.obj [("priority_score", JSValue.num ⟨0, 0⟩)])
      (by simp)⟩

theorem normCategory_of_result (r : ClassificationResult)
    (htrim : jsTrimL r.category.data = r.category.data)
    (hne : r.category.data ≠ []) :
    normCategory (resultToJSValue r) = r.category := by
  unfold normCategory
  rw [show jsField (resultToJSValue r) "category" = some (JSValue.str r.category) from rfl]
  show (if jsTrimL r.category.toList ≠ [] then String.mk (jsTrimL r.category.toList)
      else "Unknown") = r.category
  have hcond : jsTrimL r.category.toList ≠ [] := by
    rw [show r.category.toList = r.category.data from rfl, htrim]
    exact hne
  rw [if_pos hcond, show r.category.toList = r.category.data from rfl, htrim]

theorem normSentiment_of_result (r : ClassificationResult)
    (hs : r.sentiment = "Neutral" ∨ r.sentiment = "Angry") :
    normSentiment (resultToJSValue r) = r.sentiment := by
  unfold normSentiment
  rw [show jsField (resultToJSValue r) "sentiment" = some (JSValue.str r.sentiment) from rfl]
  show (if r.sentiment = "Angry" then "Angry" else "Neutral") = r.sentiment
  rcases hs with h | h
  · rw [h]
    decide
  · rw [h]
    decide

theorem normPriority_of_result (r : ClassificationResult)
    (hb : 1 ≤ r.priority_score ∧ r.priority_score ≤ 5) :
    normPriority (resultToJSValue r) = r.priority_score := by
  unfold normPriority
  rw [show jsToNumberField (jsField (resultToJSValue r) "priority_score") =
    JSNum.num ⟨r.priority_score, 0⟩ from rfl]
  simp only [clampPriority]
  rw [decAsInt?_int]
  show (if 1 ≤ r.priority_score ∧ r.priority_score ≤ 5 then r.priority_score else 3) =
    r.priority_score
  rw [if_pos hb]

theorem normReasoning_of_result (r : ClassificationResult)
    (htrim : jsTrimL r.reasoning.data = r.reasoning.data)
    (hne : r.reasoning ≠ "") :
    normReasoning (resultToJSValue r) = r.reasoning := by
  unfold normReasoning
  rw [show jsField (resultToJSValue r) "reasoning" = some (JSValue.str r.reasoning) from rfl]
  show (if jsTrimL r.reasoning.toList ≠ [] then String.mk (jsTrimL r.reasoning.toList)
      else synthReasoning (normCategory (resultToJSValue r))
        (normSentiment (resultToJSValue r)) (normPriority (resultToJSValue r))) =
    r.reasoning
  have hcond : jsTrimL r.reasoning.toList ≠ [] := by
    rw [show r.reasoning.toList = r.reasoning.data from rfl, htrim]
    intro hc
    exact hne (String.ext hc)
  rw [if_pos hcond, show r.reasoning.toList = r.reasoning.data from rfl, htrim]

/-- Claim C5: normalization is idempotent — if normalizing a parsed value
yields the result object `r`, then normalizing `r` itself (as the
JavaScript object the normalizer returned) yields `r` again. -/
theorem claim5_normalize_idempotent (x : JSValue) (r : ClassificationResult)
    (h : normalizeCategorizationResult x = Except.ok r) :
    normalizeCategorizationResult (resultToJSValue r) = Except.ok r := by
  have hnn : x ≠ JSValue.null := by
    intro hp
    subst hp
    exact Except.noConfusion h
  rw [normalize_ok hnn] at h
  injection h with h2
  subst h2
  rw [normalize_ok (resultToJSValue_ne_null _)]
  refine congrArg Except.ok ?_
  have hcat := normCategory_trim_fixed x
  simp only [ClassificationResult.mk.injEq]
  exact ⟨normCategory_of_result _ hcat.1 hcat.2,
    normSentiment_of_result _ (normSentiment_cases x),
    normPriority_of_result _ (normPriority_bounds x),
    normReasoning_of_result _ (normReasoning_trim_fixed x) (normReasoning_ne_empty x)⟩

theorem claim5_witness :
    normalizeCategorizationResult (JSValue.obj []) =
      Except.ok ⟨"Unknown", "Neutral", 3,
        "Category: Unknown, Sentiment: Neutral, Priority: 3."⟩ ∧
    normalizeCategorizationResult (resultToJSValue
        ⟨"Unknown", "Neutral", 3,
          "Category: Unknown, Sentiment: Neutral, Priority: 3."⟩) =
      Except.ok ⟨"Unknown", "Neutral", 3,
        "Category: Unknown, Sentiment: Neutral, Priority: 3."⟩ :=
  ⟨rfl, claim5_normalize_idempotent (JSValue.obj []) _ rfl⟩

/-- Claim C7: the message `"My bill is wrong and the app keeps
crashing!!!"` matches the billing rule before the technical rule (its
technical condition also holds, as the conjunct records), with sentiment
`Angry` from the `!!!` indicator and priority `min 5 (4+1) = 5`. -/
theorem claim7_billing_precedence :
    getMockCategorization "My bill is wrong and the app keeps crashing!!!" =
      ⟨"Billing Issue", "Angry", 5, billingReasoning⟩ ∧
    techHit "My bill is wrong and the app keeps crashing!!!" = true ∧
    includesKw "My bill is wrong and the app keeps crashing!!!" "!!!" = true ∧
    isAngryMsg "My bill is wrong and the app keeps crashing!!!" = true := by
  refine ⟨?_, by decide, by decide, by decide⟩
  decide

/-- Claim C8: any message that reaches the gratitude rule — none of the
billing, technical or feature keyword sets match — and that contains
`thank`, `thanks` or `appreciate` but neither `but` nor `however`, is
classified `General Inquiry` with sentiment forced to `Neutral`
(whatever the anger detection concluded) and priority 1. -/
theorem claim8_gratitude_override (m : String)
    (h1 : billingHit m = false) (h2 : techHit m = false) (h3 : featureHit m = false)
    (h4 : (includesKw m "thank" || includesKw m "thanks" ||
      includesKw m "appreciate") = true)
    (h5 : includesKw m "but" = false) (h6 : includesKw m "however" = false) :
    getMockCategorization m = ⟨"General Inquiry", "Neutral", 1, positiveReasoning⟩ := by
  have hg : gratitudeHit m = true := by
    unfold gratitudeHit
    rw [h4, h5, h6]
    decide
  simp [getMockCategorization, h1, h2, h3, hg]

theorem claim8_witness :
    billingHit "Thanks so much for your help!" = false ∧
    techHit "Thanks so much for your help!" = false ∧
    featureHit "Thanks so much for your help!" = false ∧
    (includesKw "Thanks so much for your help!" "thank" ||
      includesKw "Thanks so much for your help!" "thanks" ||
      includesKw "Thanks so much for your help!" "appreciate") = true ∧
    includesKw "Thanks so much for your help!" "but" = false ∧
    includesKw "Thanks so much for your help!" "however" = false ∧
    getMockCategorization "Thanks so much for your help!" =
      ⟨"General Inquiry", "Neutral", 1, positiveReasoning⟩ :=
  ⟨by decide, by decide, by decide, by decide, by decide, by decide,
    claim8_gratitude_override "Thanks so much for your help!"
      (by decide) (by decide) (by decide) (by decide) (by decide) (by decide)⟩

/-- Claim C9: on the heuristic path, the empty message matches none of
the rules — no keyword occurs in the empty string and the anger
detection is negative — and the default branch answers `General
Inquiry`, `Neutral`, priority 2, with the fixed manual-review
reasoning. -/
theorem claim9_empty_default :
    getMockCategorization "" =
      ⟨"General Inquiry", "Neutral", 2, ambiguousReasoning⟩ := by
  decide

/-! ## Supporting lemmas: the code-fence regex -/

theorem tplPrefix_cons_false {c : Char} (L : List Char) (hc : c ≠ '\x60') :
    tplPrefix (c :: L) = false := by
  rw [Bool.eq_false_iff]
  intro hp
  obtain ⟨t, ht⟩ := List.isPrefixOf_iff_prefix.mp hp
  rw [show tplL ++ t = '\x60' :: '\x60' :: '\x60' :: t from rfl] at ht
  injection ht with h1 _
  exact hc h1.symm

theorem dropWhile_append_cons (p : Char → Bool) (a : List Char) {c : Char}
    (t : List Char) (hc : p c = false) :
    List.dropWhile p (a ++ c :: t) = a.dropWhile p ++ c :: t := by
  induction a with
  | nil => simp [List.dropWhile_cons, hc]
  | cons d a' ih =>
    by_cases hd : p d
    · simp [List.dropWhile_cons, hd, ih]
    · simp [List.dropWhile_cons, hd]

theorem findClose_append (x : List Char) (r : List Char) (hx : ¬ tplL <:+: x)
    (hlast : x.getLast? ≠ some '\x60') :
    findClose (x ++ (tplL ++ r)) = some x := by
  induction x with
  | nil =>
    show findClose ('\x60' :: '\x60' :: '\x60' :: r) = some []
    have htp : tplPrefix ('\x60' :: '\x60' :: '\x60' :: r) = true := by
      simp [tplPrefix, tplL, List.isPrefixOf]
    show (if tplPrefix ('\x60' :: '\x60' :: '\x60' :: r) = true then some []
      else (findClose ('\x60' :: '\x60' :: r)).map fun g => '\x60' :: g) = some []
    rw [htp]
    simp
  | cons c x' ih =>
    have hnp : tplPrefix (c :: (x' ++ (tplL ++ r))) = false := by
      rw [Bool.eq_false_iff]
      intro hp
      obtain ⟨t, ht⟩ := List.isPrefixOf_iff_prefix.mp hp
      rw [show tplL ++ t = '\x60' :: '\x60' :: '\x60' :: t from rfl] at ht
      rcases x' with _ | ⟨d, x2⟩
      · injection ht with hc _
        exact hlast (by rw [show ([c] : List Char).getLast? = some c from rfl, ← hc])
      · rcases x2 with _ | ⟨e, x3⟩
        · injection ht with hc ht2
          injection ht2 with hd _
          exact hlast (by rw [show ([c, d] : List Char).getLast? = some d from rfl, ← hd])
        · injection ht with hc ht2
          injection ht2 with hd ht3
          injection ht3 with he _
          refine hx (List.IsPrefix.isInfix ⟨x3, ?_⟩)
          rw [show tplL ++ x3 = '\x60' :: '\x60' :: '\x60' :: x3 from rfl, ← hc, ← hd, ← he]
    have hx' : ¬ tplL <:+: x' := fun hi => hx (List.infix_cons hi)
    have hlast' : x'.getLast? ≠ some '\x60' := by
      rcases x' with _ | ⟨d, x2⟩
      · simp
      · rw [← List.getLast?_cons_cons (a := c)]
        exact hlast
    show (if tplPrefix (c :: (x' ++ (tplL ++ r))) = true then some []
      else (findClose (x' ++ (tplL ++ r))).map fun g => c :: g) = some (c :: x')
    rw [hnp]
    simp only [Bool.false_eq_true, if_false]
    rw [ih hx' hlast']
    rfl

theorem bq_mem_of_has_tpl {x : List Char} (h : tplL <:+: x) : '\x60' ∈ x := by
  obtain ⟨s, t, hst⟩ := h
  subst hst
  simp [tplL]

theorem findClose_append_of_bqfree (x : List Char) (r : List Char)
    (h : ∀ c ∈ x, c ≠ '\x60') :
    findClose (x ++ (tplL ++ r)) = some x := by
  refine findClose_append x r ?_ ?_
  · intro hi
    exact h _ (bq_mem_of_has_tpl hi) rfl
  · intro hl
    rw [List.getLast?_eq_some_iff] at hl
    obtain ⟨ys, hys⟩ := hl
    exact h '\x60' (by rw [hys]; simp) rfl

theorem tryOpen_cons_none {c : Char} (L : List Char) (hc : c ≠ '\x60') :
    tryOpen (c :: L) = none := by
  unfold tryOpen
  rw [tplPrefix_cons_false _ hc]
  simp

theorem scan_prepend (rest : List Char) :
    ∀ pre : List Char, (∀ c ∈ pre, c ≠ '\x60') →
      scanCB (pre ++ rest) = scanCB rest
  | [], _ => rfl
  | c :: p', h => by
    have hto : tryOpen (c :: (p' ++ rest)) = none :=
      tryOpen_cons_none _ (h c (List.mem_cons_self c p'))
    show (match tryOpen (c :: (p' ++ rest)) with
      | some g => some g
      | none => scanCB (p' ++ rest)) = scanCB rest
    rw [hto]
    exact scan_prepend rest p' (fun d hd => h d (List.mem_cons_of_mem _ hd))

theorem scan_none : ∀ l : List Char, ¬ tplL <:+: l → scanCB l = none
  | [], _ => rfl
  | c :: rest, h => by
    have hnp : tplPrefix (c :: rest) = false := by
      rw [Bool.eq_false_iff]
      intro hp
      exact h (List.IsPrefix.isInfix (List.isPrefixOf_iff_prefix.mp hp))
    have hto : tryOpen (c :: rest) = none := by
      unfold tryOpen
      rw [hnp]
      simp
    show (match tryOpen (c :: rest) with
      | some g => some g
      | none => scanCB rest) = none
    rw [hto]
    exact scan_none rest (fun hi => h (List.infix_cons hi))

theorem tryOpen_fence (X : List Char) :
    tryOpen ('\x60' :: '\x60' :: '\x60' :: X) = afterOpen X := by
  unfold tryOpen
  rw [show tplPrefix ('\x60' :: '\x60' :: '\x60' :: X) = true from by
    simp [tplPrefix, tplL, List.isPrefixOf]]
  simp [List.drop]

theorem scan_fence (X : List Char) {g : List Char} (h : afterOpen X = some g) :
    scanCB (tplL ++ X) = some g := by
  show (match tryOpen ('\x60' :: '\x60' :: '\x60' :: X) with
    | some g => some g
    | none => scanCB ('\x60' :: '\x60' :: X)) = some g
  rw [tryOpen_fence, h]

theorem mem_of_mem_dropWhile {c : Char} {p : Char → Bool} {l : List Char}
    (h : c ∈ l.dropWhile p) : c ∈ l :=
  (List.dropWhile_suffix p).subset h

theorem afterOpen_fenced (body r : List Char) (hb : ∀ c ∈ body, c ≠ '\x60') :
    afterOpen (body ++ (tplL ++ r)) =
      some ((if ('j' :: 's' :: 'o' :: 'n' :: []).isPrefixOf body then body.drop 4
        else body).dropWhile isJsWs) := by
  unfold afterOpen
  by_cases htag : ('j' :: 's' :: 'o' :: 'n' :: []).isPrefixOf body = true
  · obtain ⟨t, ht⟩ := List.isPrefixOf_iff_prefix.mp htag
    have hstream : ('j' :: 's' :: 'o' :: 'n' :: []).isPrefixOf
        (body ++ (tplL ++ r)) = true := by
      apply List.isPrefixOf_iff_prefix.mpr
      exact ⟨t ++ (tplL ++ r), by rw [← List.append_assoc, ht]⟩
    rw [if_pos hstream, if_pos htag]
    show findClose (List.dropWhile isJsWs ((body ++ (tplL ++ r)).drop 4)) =
      some (List.dropWhile isJsWs (body.drop 4))
    rw [← ht]
    rw [show ((('j' :: 's' :: 'o' :: 'n' :: []) ++ t) ++ (tplL ++ r)).drop 4 =
      t ++ (tplL ++ r) from by simp]
    rw [show (('j' :: 's' :: 'o' :: 'n' :: []) ++ t).drop 4 = t from by simp]
    rw [show tplL ++ r = '\x60' :: ('\x60' :: '\x60' :: r) from rfl]
    rw [dropWhile_append_cons isJsWs t _ (by decide)]
    rw [show ('\x60' : Char) :: ('\x60' :: '\x60' :: r) = tplL ++ r from rfl]
    refine findClose_append_of_bqfree _ r ?_
    intro c hc
    refine hb c ?_
    rw [← ht]
    exact List.mem_append_right _ (mem_of_mem_dropWhile hc)
  · have hstreamF : ('j' :: 's' :: 'o' :: 'n' :: []).isPrefixOf
        (body ++ (tplL ++ r)) = false := by
      rw [Bool.eq_false_iff]
      intro hp
      obtain ⟨t', ht'⟩ := List.isPrefixOf_iff_prefix.mp hp
      rw [show ('j' :: 's' :: 'o' :: 'n' :: []) ++ t' = 'j' :: 's' :: 'o' :: 'n' :: t'
        from rfl] at ht'
      rcases body with _ | ⟨b0, body1⟩
      · rw [List.nil_append,
          show tplL ++ r = '\x60' :: '\x60' :: '\x60' :: r from rfl] at ht'
        injection ht' with h1 _
        exact absurd h1 (by decide)
      · rcases body1 with _ | ⟨b1, body2⟩
        · rw [show ([b0] ++ (tplL ++ r) : List Char) =
            b0 :: '\x60' :: '\x60' :: '\x60' :: r from rfl] at ht'
          injection ht' with h1 ht2
          injection ht2 with h2 _
          exact absurd h2 (by decide)
        · rcases body2 with _ | ⟨b2, body3⟩
          · rw [show ([b0, b1] ++ (tplL ++ r) : List Char) =
              b0 :: b1 :: '\x60' :: '\x60' :: '\x60' :: r from rfl] at ht'
            injection ht' with h1 ht2
            injection ht2 with h2 ht3
            injection ht3 with h3 _
            exact absurd h3 (by decide)
          · rcases body3 with _ | ⟨b3, body4⟩
            · rw [show ([b0, b1, b2] ++ (tplL ++ r) : List Char) =
                b0 :: b1 :: b2 :: '\x60' :: '\x60' :: '\x60' :: r from rfl] at ht'
              injection ht' with h1 ht2
              injection ht2 with h2 ht3
              injection ht3 with h3 ht4
              injection ht4 with h4 _
              exact absurd h4 (by decide)
            · rw [show ((b0 :: b1 :: b2 :: b3 :: body4) ++ (tplL ++ r) : List Char) =
                b0 :: b1 :: b2 :: b3 :: (body4 ++ (tplL ++ r)) from rfl] at ht'
              injection ht' with h1 ht2
              injection ht2 with h2 ht3
              injection ht3 with h3 ht4
              injection ht4 with h4 _
              apply htag
              rw [← h1, ← h2, ← h3, ← h4]
              simp [List.isPrefixOf]
    rw [if_neg (Bool.eq_false_iff.mp hstreamF), if_neg htag]
    show findClose (List.dropWhile isJsWs (body ++ (tplL ++ r))) =
      some (List.dropWhile isJsWs body)
    rw [show tplL ++ r = '\x60' :: ('\x60' :: '\x60' :: r) from rfl]
    rw [dropWhile_append_cons isJsWs body _ (by decide)]
    rw [show ('\x60' : Char) :: ('\x60' :: '\x60' :: r) = tplL ++ r from rfl]
    refine findClose_append_of_bqfree _ r ?_
    intro c hc
    exact hb c (mem_of_mem_dropWhile hc)

/-- Claim C10: the regex extracts the first fenced segment occurring
anywhere in the reply, not only when the fence encloses the whole reply:
for a reply of the form `pre ```body``` post` (backtick-free `pre` and
`body`), everything outside the first fenced block is ignored — the
reply parses exactly as if it consisted of the first fenced block alone,
whatever `post` contains (including further fenced blocks). -/
theorem claim10_first_fence_only (pre body post : List Char)
    (hpre : ∀ c ∈ pre, c ≠ '\x60') (hbody : ∀ c ∈ body, c ≠ '\x60') :
    parseJsonResponse (String.mk (pre ++ (tplL ++ (body ++ (tplL ++ post))))) =
      parseJsonResponse (String.mk (tplL ++ (body ++ tplL))) := by
  unfold parseJsonResponse
  have h1 : scanCB ((String.mk (pre ++ (tplL ++ (body ++ (tplL ++ post))))).toList) =
      some ((if ('j' :: 's' :: 'o' :: 'n' :: []).isPrefixOf body then body.drop 4
        else body).dropWhile isJsWs) := by
    show scanCB (pre ++ (tplL ++ (body ++ (tplL ++ post)))) = _
    rw [scan_prepend _ pre hpre]
    exact scan_fence _ (afterOpen_fenced body post hbody)
  have h2 : scanCB ((String.mk (tplL ++ (body ++ tplL))).toList) =
      some ((if ('j' :: 's' :: 'o' :: 'n' :: []).isPrefixOf body then body.drop 4
        else body).dropWhile isJsWs) := by
    show scanCB (tplL ++ (body ++ tplL)) = _
    rw [show body ++ tplL = body ++ (tplL ++ []) from by simp]
    exact scan_fence _ (afterOpen_fenced body [] hbody)
  rw [h1, h2]

theorem claim10_witness :
    (∀ c ∈ ("Here is the classification: " : String).toList, c ≠ '\x60') ∧
    (∀ c ∈ ("json \x7b\"a\": 1\x7d " : String).toList, c ≠ '\x60') ∧
    parseJsonResponse (String.mk (("Here is the classification: " : String).toList ++
        (tplL ++ (("json \x7b\"a\": 1\x7d " : String).toList ++
          (tplL ++ (" trailing text ```json 2``` more" : String).toList))))) =
      parseJsonResponse (String.mk (tplL ++
        (("json \x7b\"a\": 1\x7d " : String).toList ++ tplL))) :=
  ⟨by decide, by decide,
    claim10_first_fence_only ("Here is the classification: " : String).toList
      ("json \x7b\"a\": 1\x7d " : String).toList
      (" trailing text ```json 2``` more" : String).toList
      (by decide) (by decide)⟩

theorem suffix_getLast? {x m : List Char} (h : x <:+ m) (hne : x ≠ []) :
    x.getLast? = m.getLast? := by
  obtain ⟨s, rfl⟩ := h
  exact (List.getLast?_append_of_ne_nil s hne).symm

theorem tpl_not_infix_concat {j : List Char} {c : Char} (hc : c ≠ '\x60')
    (h : ¬ tplL <:+: j) : ¬ tplL <:+: (j ++ [c]) := by
  rintro ⟨s, t, hst⟩
  rcases List.eq_nil_or_concat t with rfl | ⟨t', d, rfl⟩
  · rw [List.append_nil] at hst
    have h1 : (j ++ [c]).getLast? = some c := List.getLast?_concat j
    rw [← hst] at h1
    have h2 : (s ++ tplL).getLast? = some '\x60' := by
      rw [show (tplL : List Char) = ['\x60', '\x60'] ++ ['\x60'] from rfl,
        ← List.append_assoc]
      exact List.getLast?_concat _
    rw [h2] at h1
    injection h1 with h1
    exact hc h1.symm
  · rw [show (t'.concat d) = t' ++ [d] from List.concat_eq_append t' d] at hst
    have h3 : (s ++ tplL ++ t') ++ [d] = j ++ [c] := by
      rw [← hst]
      simp [List.append_assoc]
    have hdl := congrArg List.dropLast h3
    rw [List.dropLast_concat, List.dropLast_concat] at hdl
    exact h ⟨s, t', hdl⟩

theorem scan_wrap (j : List Char) (h2 : ¬ tplL <:+: j) :
    scanCB (("```json\n" : String).toList ++ (j ++ ("\n```" : String).toList)) =
      some ((j ++ ['\n']).dropWhile isJsWs) := by
  rw [show ("```json\n" : String).toList ++ (j ++ ("\n```" : String).toList) =
    tplL ++ ('j' :: 's' :: 'o' :: 'n' :: '\n' :: (j ++ ('\n' :: tplL))) from rfl]
  apply scan_fence
  unfold afterOpen
  rw [show (('j' :: 's' :: 'o' :: 'n' :: []).isPrefixOf
    ('j' :: 's' :: 'o' :: 'n' :: '\n' :: (j ++ ('\n' :: tplL)))) = true from by
      simp [List.isPrefixOf]]
  show findClose (List.dropWhile isJsWs ('\n' :: (j ++ ('\n' :: tplL)))) =
    some ((j ++ ['\n']).dropWhile isJsWs)
  rw [show List.dropWhile isJsWs ('\n' :: (j ++ ('\n' :: tplL))) =
    List.dropWhile isJsWs (j ++ ('\n' :: tplL)) from rfl]
  rw [show j ++ ('\n' :: tplL) = (j ++ ['\n']) ++ '\x60' :: ['\x60', '\x60'] from by
    simp [tplL]]
  rw [dropWhile_append_cons isJsWs (j ++ ['\n']) _ (by decide)]
  rw [show ('\x60' : Char) :: ['\x60', '\x60'] = tplL ++ ([] : List Char) from rfl]
  apply findClose_append
  · intro hi
    have hsfx : (j ++ ['\n']).dropWhile isJsWs <:+ (j ++ ['\n']) :=
      List.dropWhile_suffix isJsWs
    exact (tpl_not_infix_concat (by decide) h2) (hi.trans hsfx.isInfix)
  · by_cases hxe : (j ++ ['\n']).dropWhile isJsWs = []
    · rw [hxe]
      simp
    · rw [suffix_getLast? (List.dropWhile_suffix isJsWs) hxe, List.getLast?_concat]
      intro hcc
      injection hcc with hcc
      exact absurd hcc (by decide)

theorem parseJsonResponse_scan_some {content : String} {g : List Char}
    (h : scanCB content.toList = some g) :
    parseJsonResponse content =
      (match jsonParse (String.mk (jsTrimL g)) with
        | some v => v
        | none => JSValue.obj []) := by
  unfold parseJsonResponse
  rw [h]

theorem parseJsonResponse_scan_none {content : String}
    (h : scanCB content.toList = none) :
    parseJsonResponse content =
      (match jsonParse content with
        | some v => v
        | none => JSValue.obj []) := by
  unfold parseJsonResponse
  rw [h]

/-- Claim C6 counterexample, at two inputs.  For the valid JSON text
`"```"` (a JSON string containing a backtick fence), the wrapped reply's
lazy capture group stops at the fence inside the string, so the fenced
reply parses to `{}` (the parse-failure fallback) while the unfenced
reply parses to the string — different parsed objects.  For the text
`\x0b5` (vertical-tab padding), the fenced path strips the `\x0b` (regex
`\s*` plus `trim`), parsing 5, while unfenced `JSON.parse` rejects the
vertical tab, which is not JSON whitespace. -/
theorem claim6_counterexample :
    parseJsonResponse (wrapJson "\"```\"") = JSValue.obj [] ∧
    parseJsonResponse "\"```\"" = JSValue.str "```" ∧
    parseJsonResponse (wrapJson "\x0b5") = JSValue.num ⟨5, 0⟩ ∧
    parseJsonResponse "\x0b5" = JSValue.obj [] ∧
    parseJsonResponse (wrapJson "\"```\"") ≠ parseJsonResponse "\"```\"" ∧
    parseJsonResponse (wrapJson "\x0b5") ≠ parseJsonResponse "\x0b5" := by
  refine ⟨rfl, rfl, rfl, rfl, ?_, ?_⟩
  · intro h
    rw [show parseJsonResponse (wrapJson "\"```\"") = JSValue.obj [] from rfl,
      show parseJsonResponse "\"```\"" = JSValue.str "```" from rfl] at h
    exact JSValue.noConfusion h
  · intro h
    rw [show parseJsonResponse (wrapJson "\x0b5") = JSValue.num ⟨5, 0⟩ from rfl,
      show parseJsonResponse "\x0b5" = JSValue.obj [] from rfl] at h
    exact JSValue.noConfusion h

/-- Claim C6, amended: for every reply text `j` that contains no
three-backtick run and whose JavaScript trim agrees with its
JSON-whitespace trim (true of any text padded only by spaces, tabs, CR
and LF — only exotic padding such as a vertical tab distinguishes them),
wrapping `j` in a fenced code block tagged `json` yields the same parsed
object as passing `j` unfenced. -/
theorem claim6_fenced_equals_unfenced (j : String)
    (h1 : jsTrimL j.toList = jsonTrimL j.toList)
    (h2 : ¬ tplL <:+: j.toList) :
    parseJsonResponse (wrapJson j) = parseJsonResponse j := by
  have hw : (wrapJson j).toList =
      ("```json\n" : String).toList ++ (j.toList ++ ("\n```" : String).toList) := by
    show ("```json\n" ++ j ++ "\n```" : String).data = _
    rw [String.data_append, String.data_append]
    simp [List.append_assoc]
  rw [parseJsonResponse_scan_some (g := (j.toList ++ ['\n']).dropWhile isJsWs)
    (by rw [hw]; exact scan_wrap j.toList h2)]
  rw [parseJsonResponse_scan_none (scan_none j.toList h2)]
  have hg : jsTrimL ((j.toList ++ ['\n']).dropWhile isJsWs) = jsTrimL j.toList := by
    rw [jsTrimL_dropWhile, jsTrimL_concat_ws _ (by decide)]
  rw [hg]
  have hparse : jsonParse (String.mk (jsTrimL j.toList)) = jsonParse j := by
    simp only [jsonParse]
    rw [show (String.mk (jsTrimL j.toList)).toList = jsTrimL j.toList from rfl]
    rw [show jsonTrimL (jsTrimL j.toList) = jsonTrimL j.toList from by
      rw [h1, jsonTrimL_idem]]
  rw [hparse]

theorem claim6_witness :
    jsTrimL ("\x7b\"a\": 1\x7d" : String).toList =
      jsonTrimL ("\x7b\"a\": 1\x7d" : String).toList ∧
    ¬ tplL <:+: ("\x7b\"a\": 1\x7d" : String).toList ∧
    parseJsonResponse (wrapJson "\x7b\"a\": 1\x7d") =
      parseJsonResponse "\x7b\"a\": 1\x7d" :=
  ⟨by decide, by decide,
    claim6_fenced_equals_unfenced "\x7b\"a\": 1\x7d" (by decide) (by decide)⟩
